import Mathlib

/-!
Shallow embedding of the character-chat backend (src/main.py, src/schemas.py).

Modelling conventions:
* Timestamps (`datetime.now(timezone.utc)`) are abstract ticks, `Time := Nat`;
  each call of `datetime.now` in the source becomes an explicit `Time` argument.
* The Mongo database handle `db` becomes an explicit state value `DB` holding
  the three collections this program touches (`userprofile`, `character`,
  `message`) as lists in insertion order; `db is None` is `Option DB`.
* `find_one(filter)` is `List.find?` on the collection (first match in natural
  order), `insert_one` appends, `update_one(filter, set)` rewrites the first
  matching record, `find(filter).sort(key, dir)` is a sort by the key field
  (modelled by insertion sort, `sortBy`).
* `uuid4()` for persisted records is modelled by a fresh-name supply
  `uuidCounter` carried in `DB`; `genId` renders the counter as a string and
  distinct counters give distinct strings, which models the uniqueness
  guarantee of uuid4. The ephemeral response id of `generate_image` (never
  stored, never compared) is passed in as a plain argument.
* Python `hash` on strings is fixed but unspecified inside one process, so
  `generate_image` is parameterised by the hash function `hashFn`.
* The documents this program writes always carry the full field set of their
  schema, so store documents are typed structures; `dict.get` with a default
  therefore always hits the present field. The generic dict utility
  `doc_to_str_id` is modelled separately on untyped documents (`Doc`).
* An `HTTPException(status, detail)` raised before any write returns the
  store unchanged together with `Except.error`.
-/

abbrev Time := Nat

/-- Values a store document can hold (strings, numbers, booleans,
timestamps, and the JSON null that Python `None` becomes). -/
inductive Val where
  | vStr (s : String)
  | vNat (n : Nat)
  | vBool (b : Bool)
  | vTime (t : Time)
  | vNull
deriving Repr, DecidableEq

/-- Python `str(...)` on a stored value. -/
def Val.toStr : Val → String
  | .vStr s => s
  | .vNat n => toString n
  | .vBool b => if b then "True" else "False"
  | .vTime t => toString t
  | .vNull => "None"

/-- An untyped store document: a key-value mapping, keys unique. -/
abbrev Doc := List (String × Val)

/-- Dict key lookup `d[k]` / `k in d`. -/
def Doc.lookup (d : Doc) (k : String) : Option Val :=
  (d.find? (fun p => p.1 == k)).map (fun p => p.2)

/-- Dict `d.pop(k)`: the mapping with key `k` removed. -/
def Doc.erase (d : Doc) (k : String) : Doc :=
  d.filter (fun p => p.1 != k)

/-- Dict assignment `d[k] = v`: update in place when the key exists,
append otherwise. -/
def Doc.set (d : Doc) (k : String) (v : Val) : Doc :=
  if d.any (fun p => p.1 == k) then
    d.map (fun p => if p.1 == k then (k, v) else p)
  else
    d ++ [(k, v)]

/-- src/main.py `doc_to_str_id`: copy the document, pop the private key
`_id` when present and publish it as `id` holding its string form.
Working on a copy of a persistent value, it leaves the argument untouched. -/
def doc_to_str_id (doc : Doc) : Doc :=
  match doc.lookup "_id" with
  | some v => (doc.erase "_id").set "id" (.vStr v.toStr)
  | none => doc

/-- Stored document of the `userprofile` collection (written only by
`upsert_user`, which stamps every one of these fields). -/
structure UserDoc where
  _id : String
  username : String
  age : Option Nat
  trust_score : Nat
  created_at : Time
  updated_at : Time
deriving Repr, DecidableEq

/-- Stored document of the `character` collection (written only by
`create_character`). -/
structure CharacterDoc where
  _id : String
  name : String
  personality : String
  appearance : Option String
  location : Option String
  creator_username : String
  nsfw_allowed : Bool
  created_at : Time
  updated_at : Time
deriving Repr, DecidableEq

/-- Stored document of the `message` collection (written only by
`post_message`). -/
structure MessageDoc where
  _id : String
  character_id : String
  username : String
  text : String
  role : String
  created_at : Time
  updated_at : Time
deriving Repr, DecidableEq

/-- The database state: the three collections in insertion order plus the
fresh-id supply standing in for uuid4. -/
structure DB where
  userprofile : List UserDoc
  character : List CharacterDoc
  message : List MessageDoc
  uuidCounter : Nat
deriving Repr, DecidableEq

/-- Fresh opaque string id drawn from the supply; distinct draws give
strings of distinct length, modelling uuid4 uniqueness. -/
def genId (n : Nat) : String :=
  String.mk (List.replicate n 'u')

/-- Insertion step of the sort modelling `.sort(field, dir)`. -/
def insertSorted (le : α → α → Bool) (x : α) : List α → List α
  | [] => [x]
  | y :: ys => if le x y then x :: y :: ys else y :: insertSorted le x ys

/-- The store sort `find(...).sort(field, dir)`: a comparison sort by the
given boolean order. -/
def sortBy (le : α → α → Bool) : List α → List α
  | [] => []
  | x :: xs => insertSorted le x (sortBy le xs)

/-- HTTPException: status code and detail. -/
structure HErr where
  status : Nat
  detail : String
deriving Repr, DecidableEq

/-- Pydantic `UserProfile` model: both the request body of `POST /users`
and its three-field response projection. -/
structure UserProfile where
  username : String
  age : Option Nat
  trust_score : Nat
deriving Repr, DecidableEq

/-- Schema validation bounds of `UserProfile` (pydantic Field constraints). -/
def UserProfile.Valid (p : UserProfile) : Prop :=
  2 ≤ p.username.length ∧ p.username.length ≤ 32 ∧
  (∀ a ∈ p.age, a ≤ 150) ∧ p.trust_score ≤ 100

instance (p : UserProfile) : Decidable p.Valid := by
  unfold UserProfile.Valid; infer_instance

/-- Pydantic `Character` request model. -/
structure Character where
  name : String
  personality : String
  appearance : Option String
  location : Option String
  creator_username : String
  nsfw_allowed : Bool
deriving Repr, DecidableEq

/-- Pydantic `CharacterOut` response model. -/
structure CharacterOut where
  id : String
  name : String
  personality : String
  appearance : Option String
  location : Option String
  creator_username : String
  nsfw_allowed : Bool
  created_at : Time
deriving Repr, DecidableEq

/-- Pydantic `MessageOut` response model. -/
structure MessageOut where
  id : String
  character_id : String
  username : String
  text : String
  role : String
  created_at : Time
deriving Repr, DecidableEq

/-- Request body of `POST /chat/.../messages`. -/
structure ChatIn where
  username : String
  text : String
deriving Repr, DecidableEq

/-- Pydantic `ImageRequest` model; `rating` is the literal string
`"SFW"` or `"NSFW"` as in the schema. -/
structure ImageRequest where
  character_id : String
  username : String
  prompt : String
  style : Option String
  rating : String
deriving Repr, DecidableEq

/-- Response model of `POST /images`. -/
structure ImageGenResponse where
  id : String
  status : String
  message : String
  image_url : Option String
deriving Repr, DecidableEq

/-- Response shaping used by `create_character` and `list_characters`:
normalised id plus the character fields. -/
def toCharacterOut (c : CharacterDoc) : CharacterOut :=
  ⟨c._id, c.name, c.personality, c.appearance, c.location,
   c.creator_username, c.nsfw_allowed, c.created_at⟩

/-- Response shaping used by `post_message` and `get_messages`. -/
def toMessageOut (m : MessageDoc) : MessageOut :=
  ⟨m._id, m.character_id, m.username, m.text, m.role, m.created_at⟩

/-- Rewrite the first list element satisfying `p` (Mongo `update_one`). -/
def updateFirst (p : α → Bool) (f : α → α) : List α → List α
  | [] => []
  | x :: xs => if p x then f x :: xs else x :: updateFirst p f xs

/-- Mongo `update_one` `$set` with the payload `upsert_user` sends: the
model fields of the profile plus the refreshed `updated_at` stamp. -/
def applySet (profile : UserProfile) (tUpd : Time) (u : UserDoc) : UserDoc :=
  { u with
    username := profile.username
    age := profile.age
    trust_score := profile.trust_score
    updated_at := tUpd }

/-- The document the insert branch of `upsert_user` writes: the payload
stamped with both timestamps, keyed by the username itself. -/
def insertedUser (p : UserProfile) (tUpd tCre : Time) : UserDoc :=
  { _id := p.username, username := p.username, age := p.age,
    trust_score := p.trust_score, created_at := tCre, updated_at := tUpd }

/-- src/main.py `upsert_user`. `tUpd` and `tCre` are the two
`datetime.now` calls, in source order. -/
def upsert_user (db : Option DB) (profile : UserProfile) (tUpd tCre : Time) :
    Option DB × Except HErr UserProfile :=
  match db with
  | none => (none, .error ⟨500, "Database not available"⟩)
  | some d =>
    match d.userprofile.find? (fun u => u.username == profile.username) with
    | some existing =>
      let updated : UserDoc := applySet profile tUpd existing
      let d1 : DB :=
        { d with userprofile := updateFirst (fun u => u._id == existing._id) (applySet profile tUpd) d.userprofile }
      -- re-read: doc = find_one({_id: existing._id}); the update keeps the
      -- id, so the read always succeeds; the fallback branch is dead code
      let doc := (d1.userprofile.find? (fun u => u._id == existing._id)).getD updated
      (some d1, .ok ⟨doc.username, doc.age, doc.trust_score⟩)
    | none =>
      let payload : UserDoc :=
        { _id := profile.username
          username := profile.username
          age := profile.age
          trust_score := profile.trust_score
          created_at := tCre
          updated_at := tUpd }
      (some { d with userprofile := d.userprofile ++ [payload] },
       .ok ⟨payload.username, payload.age, payload.trust_score⟩)

/-- src/main.py `create_character`: always an insert of a fresh record. -/
def create_character (db : Option DB) (character : Character) (now : Time) :
    Option DB × Except HErr CharacterOut :=
  match db with
  | none => (none, .error ⟨500, "Database not available"⟩)
  | some d =>
    let data : CharacterDoc :=
      { _id := genId d.uuidCounter
        name := character.name
        personality := character.personality
        appearance := character.appearance
        location := character.location
        creator_username := character.creator_username
        nsfw_allowed := character.nsfw_allowed
        created_at := now
        updated_at := now }
    (some { d with character := d.character ++ [data],
                   uuidCounter := d.uuidCounter + 1 },
     .ok (toCharacterOut data))

/-- src/main.py `list_characters`: all characters sorted by `created_at`
descending. -/
def list_characters (db : Option DB) :
    Option DB × Except HErr (List CharacterOut) :=
  match db with
  | none => (none, .error ⟨500, "Database not available"⟩)
  | some d =>
    let docs := sortBy (fun a b => decide (b.created_at ≤ a.created_at)) d.character
    (some d, .ok (docs.map toCharacterOut))

/-- src/main.py `generate_character_reply`: deterministic template over the
character name, personality and the first 400 characters of the user text.
The schema guarantees both fields are present, so the `dict.get` defaults
never fire. -/
def generate_character_reply (character : CharacterDoc) (user_text : String) : String :=
  let persona := character.personality
  let name := character.name
  let prompt_safe := user_text.take 400
  name ++ ": As a " ++ persona ++ " character, I hear you say: \x27" ++
    prompt_safe ++
    "\x27. Here\x27s my friendly response: I\x27m excited to chat and co-create images. Share more about style, mood, and setting!"

/-- src/main.py `post_message`: check the character exists, write the user
message and the generated character reply with the same timestamp, then
return the full sorted history for that character. -/
def post_message (db : Option DB) (character_id : String) (payload : ChatIn)
    (now : Time) : Option DB × Except HErr (List MessageOut) :=
  match db with
  | none => (none, .error ⟨500, "Database not available"⟩)
  | some d =>
    match d.character.find? (fun c => c._id == character_id) with
    | none => (some d, .error ⟨404, "Character not found"⟩)
    | some char =>
      let user_msg : MessageDoc :=
        { _id := genId d.uuidCounter
          character_id := character_id
          username := payload.username
          text := payload.text
          role := "user"
          created_at := now
          updated_at := now }
      let reply_text := generate_character_reply char payload.text
      let char_msg : MessageDoc :=
        { _id := genId (d.uuidCounter + 1)
          character_id := character_id
          username := char.name
          text := reply_text
          role := "character"
          created_at := now
          updated_at := now }
      let d2 : DB :=
        { d with message := d.message ++ [user_msg, char_msg],
                 uuidCounter := d.uuidCounter + 2 }
      let msgs := sortBy (fun a b => decide (a.created_at ≤ b.created_at))
        (d2.message.filter (fun m => m.character_id == character_id))
      (some d2, .ok (msgs.map toMessageOut))

/-- src/main.py `get_messages`: the sorted history for the id, with no
existence check on the character. -/
def get_messages (db : Option DB) (character_id : String) :
    Option DB × Except HErr (List MessageOut) :=
  match db with
  | none => (none, .error ⟨500, "Database not available"⟩)
  | some d =>
    let msgs := sortBy (fun a b => decide (a.created_at ≤ b.created_at))
      (d.message.filter (fun m => m.character_id == character_id))
    (some d, .ok (msgs.map toMessageOut))

/-- The composite description string of src/main.py `generate_image`
(`or` on the optional fields turns `None` into the empty string). -/
def imageDesc (char : CharacterDoc) (prompt : String) : String :=
  char.name ++ " | " ++ char.personality ++ " | " ++
    (char.appearance.getD "") ++ " | " ++ (char.location.getD "") ++ " | " ++ prompt

/-- The fixed message of the blocked branch of `generate_image`. -/
def nsfwBlockedMessage : String :=
  "NSFW image generation is gated and disabled in this demo. Earn trust and ensure adult age in a production-ready system."

/-- src/main.py `generate_image`: pure derivation, no persistence.
`hashFn` is the process string hash; `rid` the ephemeral uuid of the
response. -/
def generate_image (db : Option DB) (hashFn : String → Int) (req : ImageRequest)
    (rid : String) : Except HErr ImageGenResponse :=
  match db with
  | none => .error ⟨500, "Database not available"⟩
  | some d =>
    match d.character.find? (fun c => c._id == req.character_id) with
    | none => .error ⟨404, "Character not found"⟩
    | some char =>
      match d.userprofile.find? (fun u => u.username == req.username) with
      | none => .error ⟨404, "User not found"⟩
      | some _user =>
        if req.rating == "NSFW" then
          .ok ⟨rid, "blocked", nsfwBlockedMessage, none⟩
        else
          let desc := imageDesc char req.prompt
          let seed := (hashFn desc).natAbs % 1000
          .ok ⟨rid, "completed", "SFW image created (placeholder)",
               some ("https://picsum.photos/seed/" ++ toString seed ++ "/768/512")⟩

/-- The invariant the user store keeps under this API: every document key
equals its username (the readable primary key the code assigns) and
usernames are unique (the Mongo unique `_id` index on what the code uses
as the upsert key). -/
def UserStoreWF (l : List UserDoc) : Prop :=
  (∀ u ∈ l, u._id = u.username) ∧ (l.map (fun u => u.username)).Nodup

instance (l : List UserDoc) : Decidable (UserStoreWF l) := by
  unfold UserStoreWF; infer_instance

/-! ### Concrete sample data used by the witness theorems -/

/-- Sample stored user. -/
def wUser : UserDoc :=
  { _id := "alice", username := "alice", age := some 30, trust_score := 42,
    created_at := 1, updated_at := 1 }

/-- Sample stored character; its id is `genId 2`. -/
def wChar : CharacterDoc :=
  { _id := genId 2, name := "Rei", personality := "stoic and calm",
    appearance := some "blue hair", location := none,
    creator_username := "alice", nsfw_allowed := false,
    created_at := 5, updated_at := 5 }

/-- Sample database holding one user and one character. -/
def wDB : DB := { userprofile := [wUser], character := [wChar], message := [], uuidCounter := 7 }

/-- Sample untyped document with a private key. -/
def wDoc : Doc := [("_id", .vStr "abc"), ("name", .vStr "Rei")]

/-- Sample NSFW image request aimed at the sample character and user. -/
def wReqN : ImageRequest :=
  { character_id := genId 2, username := "alice", prompt := "a cat picture",
    style := none, rating := "NSFW" }

/-- Sample SFW image request. -/
def wReqS : ImageRequest :=
  { character_id := genId 2, username := "alice", prompt := "a cat picture",
    style := some "anime", rating := "SFW" }

/-- Second SFW request: same character and prompt, different style. -/
def wReqS2 : ImageRequest :=
  { character_id := genId 2, username := "alice", prompt := "a cat picture",
    style := none, rating := "SFW" }

/-- Sample string hash standing in for the process hash function. -/
def wHash : String → Int := fun s => Int.ofNat s.length

/-- Sample chat body. -/
def wChat : ChatIn := { username := "alice", text := "hello there" }

/-- Sample user profiles for the upsert witness. -/
def wProf1 : UserProfile := { username := "bob", age := none, trust_score := 10 }

/-- Second upsert payload for the same username. -/
def wProf2 : UserProfile := { username := "bob", age := some 25, trust_score := 99 }

/-- Sample character creation body. -/
def wCharIn : Character :=
  { name := "Asuka", personality := "fiery and proud", appearance := none,
    location := some "Tokyo-3", creator_username := "alice", nsfw_allowed := false }

/-! ### Properties of the sort modelling the store sort -/

theorem insertSorted_perm (le : α → α → Bool) (x : α) (l : List α) :
    (insertSorted le x l).Perm (x :: l) := by
  induction l with
  | nil => exact List.Perm.refl _
  | cons y ys ih =>
    unfold insertSorted
    cases h : le x y with
    | true => simp
    | false =>
      simp only [Bool.false_eq_true, if_false]
      exact (ih.cons y).trans (List.Perm.swap x y ys)

theorem sortBy_perm (le : α → α → Bool) (l : List α) :
    (sortBy le l).Perm l := by
  induction l with
  | nil => exact List.Perm.refl _
  | cons x xs ih =>
    exact (insertSorted_perm le x (sortBy le xs)).trans (ih.cons x)

theorem pairwise_insertSorted (le : α → α → Bool)
    (htrans : ∀ a b c, le a b = true → le b c = true → le a c = true)
    (htot : ∀ a b, le a b = false → le b a = true)
    (x : α) (l : List α) (hl : l.Pairwise (fun a b => le a b = true)) :
    (insertSorted le x l).Pairwise (fun a b => le a b = true) := by
  induction l with
  | nil => simp [insertSorted]
  | cons y ys ih =>
    rw [List.pairwise_cons] at hl
    obtain ⟨hy, hys⟩ := hl
    unfold insertSorted
    cases h : le x y with
    | true =>
      simp only [if_true]
      rw [List.pairwise_cons]
      refine ⟨?_, ?_⟩
      · intro z hz
        rcases List.mem_cons.mp hz with rfl | hz
        · exact h
        · exact htrans x y z h (hy z hz)
      · rw [List.pairwise_cons]; exact ⟨hy, hys⟩
    | false =>
      simp only [Bool.false_eq_true, if_false]
      rw [List.pairwise_cons]
      refine ⟨?_, ih hys⟩
      intro z hz
      rcases List.mem_cons.mp ((insertSorted_perm le x ys).mem_iff.mp hz) with rfl | hz
      · exact htot _ y h
      · exact hy z hz

theorem pairwise_sortBy (le : α → α → Bool)
    (htrans : ∀ a b c, le a b = true → le b c = true → le a c = true)
    (htot : ∀ a b, le a b = false → le b a = true)
    (l : List α) : (sortBy le l).Pairwise (fun a b => le a b = true) := by
  induction l with
  | nil => simp [sortBy]
  | cons x xs ih => exact pairwise_insertSorted le htrans htot x (sortBy le xs) ih

/-- Transitivity of the ascending `created_at` order on messages. -/
theorem msgLe_trans (a b c : MessageDoc)
    (h1 : decide (a.created_at ≤ b.created_at) = true)
    (h2 : decide (b.created_at ≤ c.created_at) = true) :
    decide (a.created_at ≤ c.created_at) = true := by
  simp only [decide_eq_true_iff] at *
  exact le_trans h1 h2

/-- Totality of the ascending `created_at` order on messages. -/
theorem msgLe_total (a b : MessageDoc)
    (h : decide (a.created_at ≤ b.created_at) = false) :
    decide (b.created_at ≤ a.created_at) = true :=
  decide_eq_true (Nat.le_of_not_le (of_decide_eq_false h))

/-- Transitivity of the descending `created_at` order on characters. -/
theorem charGe_trans (a b c : CharacterDoc)
    (h1 : decide (b.created_at ≤ a.created_at) = true)
    (h2 : decide (c.created_at ≤ b.created_at) = true) :
    decide (c.created_at ≤ a.created_at) = true := by
  simp only [decide_eq_true_iff] at *
  exact le_trans h2 h1

/-- Totality of the descending `created_at` order on characters. -/
theorem charGe_total (a b : CharacterDoc)
    (h : decide (b.created_at ≤ a.created_at) = false) :
    decide (a.created_at ≤ b.created_at) = true :=
  decide_eq_true (Nat.le_of_not_le (of_decide_eq_false h))


/-! ### Dictionary lemmas for the identifier normalisation -/


theorem find?_erase_self (d : Doc) (k : String) :
    (d.erase k).find? (fun p => p.1 == k) = none := by
  rw [List.find?_eq_none]
  intro p hp
  have hne := List.of_mem_filter hp
  simp only [bne_iff_ne, ne_eq] at hne
  simp [hne]

theorem find?_erase_ne (d : Doc) (k q : String) (h : q ≠ k) :
    (d.erase k).find? (fun p => p.1 == q) = d.find? (fun p => p.1 == q) := by
  induction d with
  | nil => rfl
  | cons p t ih =>
    by_cases hk : p.1 = k
    · have h1 : (p.1 != k) = false := by simp [hk]
      have h2 : (p.1 == q) = false := by
        rw [hk]; exact beq_false_of_ne (Ne.symm h)
      rw [Doc.erase, List.filter_cons, h1]
      simp only [Bool.false_eq_true, if_false]
      rw [List.find?_cons_of_neg _ (by simp [h2]), ← Doc.erase, ih]
    · have h1 : (p.1 != k) = true := by simp [hk]
      rw [Doc.erase, List.filter_cons, h1]
      simp only [if_true]
      cases hq : (p.1 == q) with
      | true =>
        rw [List.find?_cons_of_pos _ (by simp [hq]),
            List.find?_cons_of_pos _ (by simp [hq])]
      | false =>
        rw [List.find?_cons_of_neg _ (by simp [hq]),
            List.find?_cons_of_neg _ (by simp [hq]), ← Doc.erase, ih]

theorem find?_setmap_self (d : Doc) (k : String) (v : Val)
    (hany : d.any (fun p => p.1 == k) = true) :
    (d.map (fun p => if p.1 == k then (k, v) else p)).find? (fun p => p.1 == k) =
      some (k, v) := by
  induction d with
  | nil => simp at hany
  | cons p t ih =>
    cases hpk : (p.1 == k) with
    | true =>
      simp only [List.map_cons, hpk, if_true]
      exact List.find?_cons_of_pos _ (by simp)
    | false =>
      have htail : t.any (fun p => p.1 == k) = true := by
        simp only [List.any_cons, hpk, Bool.false_or] at hany
        exact hany
      simp only [List.map_cons, hpk, Bool.false_eq_true, if_false]
      rw [List.find?_cons_of_neg _ (by simp [hpk]), ih htail]

theorem find?_setmap_ne (d : Doc) (k q : String) (v : Val) (h : q ≠ k) :
    (d.map (fun p => if p.1 == k then (k, v) else p)).find? (fun p => p.1 == q) =
      d.find? (fun p => p.1 == q) := by
  induction d with
  | nil => rfl
  | cons p t ih =>
    cases hpk : (p.1 == k) with
    | true =>
      have hk : p.1 = k := eq_of_beq hpk
      have h2 : (p.1 == q) = false := by
        rw [hk]; exact beq_false_of_ne (Ne.symm h)
      have h3 : (k == q) = false := beq_false_of_ne (Ne.symm h)
      simp only [List.map_cons, hpk, if_true]
      rw [List.find?_cons_of_neg _ (by simp [h3]),
          List.find?_cons_of_neg _ (by simp [h2]), ih]
    | false =>
      simp only [List.map_cons, hpk, Bool.false_eq_true, if_false]
      cases hq : (p.1 == q) with
      | true =>
        rw [List.find?_cons_of_pos _ (by simp [hq]),
            List.find?_cons_of_pos _ (by simp [hq])]
      | false =>
        rw [List.find?_cons_of_neg _ (by simp [hq]),
            List.find?_cons_of_neg _ (by simp [hq]), ih]

theorem Doc.lookup_set_self (d : Doc) (k : String) (v : Val) :
    (d.set k v).lookup k = some v := by
  unfold Doc.set
  cases hany : d.any (fun p => p.1 == k) with
  | true =>
    simp only [if_true]
    rw [Doc.lookup, find?_setmap_self d k v hany]
    rfl
  | false =>
    simp only [Bool.false_eq_true, if_false]
    have hnone : d.find? (fun p => p.1 == k) = none := by
      rw [List.find?_eq_none]
      intro p hp
      exact fun hpk => (List.any_eq_false.mp hany p hp) hpk
    rw [Doc.lookup, List.find?_append, hnone]
    simp [List.find?]

theorem Doc.lookup_set_ne (d : Doc) (k q : String) (v : Val) (h : q ≠ k) :
    (d.set k v).lookup q = d.lookup q := by
  unfold Doc.set
  cases hany : d.any (fun p => p.1 == k) with
  | true =>
    simp only [if_true]
    rw [Doc.lookup, find?_setmap_ne d k q v h]
    rfl
  | false =>
    simp only [Bool.false_eq_true, if_false]
    have hq : ((k, v).1 == q) = false := beq_false_of_ne (Ne.symm h)
    rw [Doc.lookup, List.find?_append]
    rw [show ([(k, v)].find? (fun p => p.1 == q)) = none by simp [List.find?, hq]]
    rw [Option.or_none]
    rfl

theorem Doc.lookup_erase_self (d : Doc) (k : String) :
    (d.erase k).lookup k = none := by
  rw [Doc.lookup, find?_erase_self]
  rfl

theorem Doc.lookup_erase_ne (d : Doc) (k q : String) (h : q ≠ k) :
    (d.erase k).lookup q = d.lookup q := by
  rw [Doc.lookup, find?_erase_ne d k q h]
  rfl

/-! ### Claim theorems -/

/-- C6: `doc_to_str_id` removes the private `_id` field, publishes `id`
holding its string representation, leaves every other field alone, and
returns a record lacking `_id` unchanged. As a pure function on an
immutable value it cannot mutate the given mapping. -/
theorem doc_to_str_id_spec (d : Doc) :
    (doc_to_str_id d).lookup "_id" = none ∧
    (∀ v, d.lookup "_id" = some v →
      (doc_to_str_id d).lookup "id" = some (.vStr v.toStr)) ∧
    (∀ q, q ≠ "_id" → q ≠ "id" → (doc_to_str_id d).lookup q = d.lookup q) ∧
    (d.lookup "_id" = none → doc_to_str_id d = d) := by
  unfold doc_to_str_id
  cases hid : d.lookup "_id" with
  | none =>
    refine ⟨hid, ?_, ?_, ?_⟩
    · intro v hv
      exact absurd hv (by simp)
    · intro q h1 h2
      rfl
    · intro h
      rfl
  | some v =>
    refine ⟨?_, ?_, ?_, ?_⟩
    · rw [Doc.lookup_set_ne _ _ _ _ (by decide)]
      exact Doc.lookup_erase_self d "_id"
    · intro w hw
      cases hw
      exact Doc.lookup_set_self _ "id" _
    · intro q h1 h2
      rw [Doc.lookup_set_ne _ _ _ _ h2, Doc.lookup_erase_ne _ _ _ h1]
    · intro h
      exact absurd h (by simp)

/-- C6 witness: evaluation of the contract on a concrete document. -/
theorem doc_to_str_id_spec_witness :
    (doc_to_str_id wDoc).lookup "id" = some (.vStr "abc") ∧
    (doc_to_str_id wDoc).lookup "name" = wDoc.lookup "name" ∧
    (doc_to_str_id wDoc).lookup "_id" = none :=
  ⟨(doc_to_str_id_spec wDoc).2.1 (.vStr "abc") rfl,
   (doc_to_str_id_spec wDoc).2.2.1 "name" (by decide) (by decide),
   (doc_to_str_id_spec wDoc).1⟩

/-- C10: the generated reply depends only on the character name, the
character personality, and the first 400 characters of the user text. -/
theorem generate_character_reply_take400 (c1 c2 : CharacterDoc) (t1 t2 : String)
    (hn : c1.name = c2.name) (hp : c1.personality = c2.personality)
    (ht : t1.take 400 = t2.take 400) :
    generate_character_reply c1 t1 = generate_character_reply c2 t2 := by
  unfold generate_character_reply
  rw [hn, hp, ht]

/-- C10 witness: texts of 401 and 500 identical characters agree on their
first 400 characters, so the replies coincide. -/
theorem generate_character_reply_take400_witness :
    generate_character_reply wChar (String.mk (List.replicate 401 'a')) =
      generate_character_reply wChar (String.mk (List.replicate 500 'a')) :=
  generate_character_reply_take400 wChar wChar _ _ rfl rfl
    (by rw [String.take_eq, String.take_eq, List.take_replicate,
          List.take_replicate]; norm_num)

/-- C1: an NSFW request whose character and user both exist is always
blocked with the fixed message and no URL, whatever the stored
trust score is. -/
theorem generate_image_nsfw_blocked (d : DB) (hashFn : String → Int)
    (req : ImageRequest) (rid : String) (char : CharacterDoc) (user : UserDoc)
    (hchar : d.character.find? (fun c => c._id == req.character_id) = some char)
    (huser : d.userprofile.find? (fun u => u.username == req.username) = some user)
    (hr : req.rating = "NSFW") :
    generate_image (some d) hashFn req rid =
      .ok ⟨rid, "blocked", nsfwBlockedMessage, none⟩ := by
  unfold generate_image
  simp only [hchar, huser, hr]
  rfl

/-- C1 witness: the sample database blocks an NSFW request even though the
stored user has a positive trust score. -/
theorem generate_image_nsfw_blocked_witness :
    generate_image (some wDB) wHash wReqN "r1" =
      .ok ⟨"r1", "blocked", nsfwBlockedMessage, none⟩ ∧ wUser.trust_score = 42 :=
  ⟨generate_image_nsfw_blocked wDB wHash wReqN "r1" wChar wUser
    (by decide) (by decide) rfl, rfl⟩

/-- C3: posting to a nonexistent character id fails with the 404 error and
returns the database state untouched: no message is written. -/
theorem post_message_char_not_found (d : DB) (cid : String) (pl : ChatIn)
    (now : Time)
    (h : d.character.find? (fun c => c._id == cid) = none) :
    post_message (some d) cid pl now = (some d, .error ⟨404, "Character not found"⟩) := by
  unfold post_message
  simp only [h]

/-- C3 witness: a lookup by an id absent from the sample database. -/
theorem post_message_char_not_found_witness :
    post_message (some wDB) "zzz" wChat 9 = (some wDB, .error ⟨404, "Character not found"⟩) :=
  post_message_char_not_found wDB "zzz" wChat 9 (by decide)

/-- C9: `get_messages` never checks the character for existence: it
returns the matching messages sorted ascending by `created_at`, and an
empty list (not an error) when no message carries that character id. -/
theorem get_messages_spec (d : DB) (cid : String) :
    ∃ out, get_messages (some d) cid = (some d, .ok out) ∧
      out.Perm ((d.message.filter (fun m => m.character_id == cid)).map toMessageOut) ∧
      List.Pairwise (fun a b : MessageOut => a.created_at ≤ b.created_at) out ∧
      ((∀ m ∈ d.message, m.character_id ≠ cid) → out = []) := by
  refine ⟨_, rfl, ?_, ?_, ?_⟩
  · exact (sortBy_perm _ _).map toMessageOut
  · have hp := pairwise_sortBy _ msgLe_trans msgLe_total
      (d.message.filter (fun m => m.character_id == cid))
    exact hp.map toMessageOut (fun a b hab => of_decide_eq_true hab)
  · intro hnone
    have hf : d.message.filter (fun m => m.character_id == cid) = [] :=
      List.filter_eq_nil_iff.mpr (fun m hm hb => hnone m hm (eq_of_beq hb))
    rw [hf]
    rfl

/-- C9 witness: the sample database has no messages, so an arbitrary
(nonexistent) character id yields the empty history without error. -/
theorem get_messages_spec_witness :
    ∃ out, get_messages (some wDB) "zzz" = (some wDB, .ok out) ∧ out = [] := by
  obtain ⟨out, h1, _, _, h4⟩ := get_messages_spec wDB "zzz"
  exact ⟨out, h1, h4 (by decide)⟩

/-- C5: an SFW request over an existing character and user completes with
the placeholder URL whose seed is the absolute hash of the composite
description modulo 1000 at the fixed 768 by 512 size, and the URL is the
same for any two requests naming the same stored character and prompt. -/
theorem generate_image_sfw_deterministic (d : DB) (hashFn : String → Int)
    (r1 r2 : ImageRequest) (rid1 rid2 : String) (char : CharacterDoc)
    (u1 u2 : UserDoc)
    (hchar1 : d.character.find? (fun c => c._id == r1.character_id) = some char)
    (hcid : r2.character_id = r1.character_id)
    (hu1 : d.userprofile.find? (fun u => u.username == r1.username) = some u1)
    (hu2 : d.userprofile.find? (fun u => u.username == r2.username) = some u2)
    (hr1 : r1.rating = "SFW") (hr2 : r2.rating = "SFW")
    (hprompt : r2.prompt = r1.prompt) :
    generate_image (some d) hashFn r1 rid1 =
      .ok ⟨rid1, "completed", "SFW image created (placeholder)",
        some ("https://picsum.photos/seed/" ++
          toString ((hashFn (imageDesc char r1.prompt)).natAbs % 1000) ++
          "/768/512")⟩ ∧
    (generate_image (some d) hashFn r1 rid1).map (fun r => r.image_url) =
      (generate_image (some d) hashFn r2 rid2).map (fun r => r.image_url) := by
  have hchar2 : d.character.find? (fun c => c._id == r2.character_id) = some char := by
    rw [hcid]; exact hchar1
  have h1 : generate_image (some d) hashFn r1 rid1 =
      .ok ⟨rid1, "completed", "SFW image created (placeholder)",
        some ("https://picsum.photos/seed/" ++
          toString ((hashFn (imageDesc char r1.prompt)).natAbs % 1000) ++
          "/768/512")⟩ := by
    unfold generate_image
    simp only [hchar1, hu1, hr1]
    rfl
  have h2 : generate_image (some d) hashFn r2 rid2 =
      .ok ⟨rid2, "completed", "SFW image created (placeholder)",
        some ("https://picsum.photos/seed/" ++
          toString ((hashFn (imageDesc char r1.prompt)).natAbs % 1000) ++
          "/768/512")⟩ := by
    unfold generate_image
    simp only [hchar2, hu2, hr2, hprompt]
    rfl
  refine ⟨h1, ?_⟩
  rw [h1, h2]
  rfl

/-- C5 witness: the two sample SFW requests differ only in style yet get
the same URL; the concrete seed under the sample hash is shown. -/
theorem generate_image_sfw_deterministic_witness :
    generate_image (some wDB) wHash wReqS "r1" =
      .ok ⟨"r1", "completed", "SFW image created (placeholder)",
        some ("https://picsum.photos/seed/" ++
          toString ((wHash (imageDesc wChar wReqS.prompt)).natAbs % 1000) ++
          "/768/512")⟩ ∧
    (generate_image (some wDB) wHash wReqS "r1").map (fun r => r.image_url) =
      (generate_image (some wDB) wHash wReqS2 "r2").map (fun r => r.image_url) :=
  generate_image_sfw_deterministic wDB wHash wReqS wReqS2 "r1" "r2" wChar
    wUser wUser (by decide) rfl (by decide) (by decide) rfl rfl rfl

/-- C2: posting to an existing character appends exactly the user message
and then the character reply to the message store; both share the same
timestamp, the reply is attributed to the character name, and the reply
text carries the character name and the input truncated at 400 characters. -/
theorem post_message_appends_two (d : DB) (cid : String) (pl : ChatIn)
    (now : Time) (char : CharacterDoc)
    (hchar : d.character.find? (fun c => c._id == cid) = some char) :
    ∃ d2 out userMsg charMsg,
      post_message (some d) cid pl now = (some d2, .ok out) ∧
      d2.message = d.message ++ [userMsg, charMsg] ∧
      userMsg.role = "user" ∧ userMsg.username = pl.username ∧
      userMsg.text = pl.text ∧ userMsg.created_at = now ∧
      charMsg.role = "character" ∧ charMsg.username = char.name ∧
      charMsg.created_at = userMsg.created_at ∧
      charMsg.text = generate_character_reply char pl.text ∧
      (∃ s1, charMsg.text = char.name ++ s1) ∧
      (∃ s2 s3, charMsg.text = s2 ++ (pl.text.take 400 ++ s3)) := by
  unfold post_message
  simp only [hchar]
  refine ⟨_, _, _, _, rfl, rfl, rfl, rfl, rfl, rfl, rfl, rfl, rfl, rfl, ?_, ?_⟩
  · refine ⟨": As a " ++ (char.personality ++ (" character, I hear you say: \x27" ++
        ((pl.text.take 400) ++
          "\x27. Here\x27s my friendly response: I\x27m excited to chat and co-create images. Share more about style, mood, and setting!"))), ?_⟩
    unfold generate_character_reply
    simp only [String.append_assoc]
  · refine ⟨char.name ++ (": As a " ++ (char.personality ++
        " character, I hear you say: \x27")),
      "\x27. Here\x27s my friendly response: I\x27m excited to chat and co-create images. Share more about style, mood, and setting!", ?_⟩
    unfold generate_character_reply
    simp only [String.append_assoc]

/-- C2 witness: a concrete chat turn against the sample database. -/
theorem post_message_appends_two_witness :
    ∃ d2 out userMsg charMsg,
      post_message (some wDB) (genId 2) wChat 9 = (some d2, .ok out) ∧
      d2.message = wDB.message ++ [userMsg, charMsg] ∧
      userMsg.role = "user" ∧ userMsg.username = wChat.username ∧
      userMsg.text = wChat.text ∧ userMsg.created_at = 9 ∧
      charMsg.role = "character" ∧ charMsg.username = wChar.name ∧
      charMsg.created_at = userMsg.created_at ∧
      charMsg.text = generate_character_reply wChar wChat.text ∧
      (∃ s1, charMsg.text = wChar.name ++ s1) ∧
      (∃ s2 s3, charMsg.text = s2 ++ (wChat.text.take 400 ++ s3)) :=
  post_message_appends_two wDB (genId 2) wChat 9 wChar (by decide)

/-- C8: a successful chat post returns the whole stored history of the
character (old and new messages alike) ordered ascending by `created_at`. -/
theorem post_message_full_history (d : DB) (cid : String) (pl : ChatIn)
    (now : Time) (char : CharacterDoc)
    (hchar : d.character.find? (fun c => c._id == cid) = some char) :
    ∃ d2 out,
      post_message (some d) cid pl now = (some d2, .ok out) ∧
      (∃ userMsg charMsg, d2.message = d.message ++ [userMsg, charMsg]) ∧
      out.Perm ((d2.message.filter (fun m => m.character_id == cid)).map toMessageOut) ∧
      List.Pairwise (fun a b : MessageOut => a.created_at ≤ b.created_at) out := by
  unfold post_message
  simp only [hchar]
  refine ⟨_, _, rfl, ⟨_, _, rfl⟩, ?_, ?_⟩
  · exact (sortBy_perm _ _).map toMessageOut
  · exact (pairwise_sortBy _ msgLe_trans msgLe_total _).map toMessageOut
      (fun a b hab => of_decide_eq_true hab)

/-- C8 witness: the concrete chat turn returns the full sorted history. -/
theorem post_message_full_history_witness :
    ∃ d2 out,
      post_message (some wDB) (genId 2) wChat 9 = (some d2, .ok out) ∧
      (∃ userMsg charMsg, d2.message = wDB.message ++ [userMsg, charMsg]) ∧
      out.Perm ((d2.message.filter (fun m => m.character_id == genId 2)).map toMessageOut) ∧
      List.Pairwise (fun a b : MessageOut => a.created_at ≤ b.created_at) out :=
  post_message_full_history wDB (genId 2) wChat 9 wChar (by decide)

/-- The fresh-id supply renders distinct counters as distinct strings. -/
theorem genId_length (n : Nat) : (genId n).length = n := by
  simp [genId, String.length]

/-- C7: creating the same character body twice always inserts two separate
records with distinct ids, each stamped `created_at = updated_at`, and the
listing returns all characters sorted by `created_at` descending. -/
theorem create_character_twice_distinct (d : DB) (c : Character) (t1 t2 : Time) :
    ∃ d1 d2 doc1 doc2,
      create_character (some d) c t1 = (some d1, .ok (toCharacterOut doc1)) ∧
      create_character (some d1) c t2 = (some d2, .ok (toCharacterOut doc2)) ∧
      d2.character = d.character ++ [doc1, doc2] ∧
      doc1._id ≠ doc2._id ∧
      doc1.created_at = doc1.updated_at ∧
      doc2.created_at = doc2.updated_at ∧
      (∃ outs, (list_characters (some d2)).2 = .ok outs ∧
        outs.Perm (d2.character.map toCharacterOut) ∧
        List.Pairwise (fun a b : CharacterOut => b.created_at ≤ a.created_at) outs) := by
  unfold create_character list_characters
  refine ⟨_, _, _, _, rfl, rfl, ?_, ?_, rfl, rfl, _, rfl, ?_, ?_⟩
  · simp
  · intro he
    have hlen := congrArg String.length he
    rw [genId_length, genId_length] at hlen
    dsimp only at hlen
    omega
  · exact (sortBy_perm _ _).map toCharacterOut
  · exact (pairwise_sortBy _ charGe_trans charGe_total _).map toCharacterOut
      (fun a b hab => of_decide_eq_true hab)

/-! ### Lemmas about `updateFirst` and the user store -/

theorem updateFirst_congr (p q : α → Bool) (f : α → α) (l : List α)
    (h : ∀ x ∈ l, p x = q x) : updateFirst p f l = updateFirst q f l := by
  induction l with
  | nil => rfl
  | cons x t ih =>
    unfold updateFirst
    rw [h x (List.mem_cons_self x t)]
    cases hq : q x with
    | true => simp only [if_true]
    | false =>
      simp only [Bool.false_eq_true, if_false]
      rw [ih (fun y hy => h y (List.mem_cons_of_mem x hy))]

theorem find?_congrP (p q : α → Bool) (l : List α)
    (h : ∀ x ∈ l, p x = q x) : l.find? p = l.find? q := by
  induction l with
  | nil => rfl
  | cons x t ih =>
    cases hq : q x with
    | true =>
      rw [List.find?_cons_of_pos _ (by rw [h x (List.mem_cons_self x t)]; exact hq),
          List.find?_cons_of_pos _ hq]
    | false =>
      rw [List.find?_cons_of_neg _ (by rw [h x (List.mem_cons_self x t)]; simp [hq]),
          List.find?_cons_of_neg _ (by simp [hq]),
          ih (fun y hy => h y (List.mem_cons_of_mem x hy))]

theorem mem_updateFirst (p : α → Bool) (f : α → α) (l : List α) (y : α)
    (hy : y ∈ updateFirst p f l) :
    y ∈ l ∨ ∃ x, x ∈ l ∧ p x = true ∧ y = f x := by
  induction l with
  | nil => simp [updateFirst] at hy
  | cons x t ih =>
    unfold updateFirst at hy
    cases hp : p x with
    | true =>
      rw [hp] at hy
      simp only [if_true] at hy
      rcases List.mem_cons.mp hy with rfl | hyt
      · exact Or.inr ⟨x, List.mem_cons_self x t, hp, rfl⟩
      · exact Or.inl (List.mem_cons_of_mem x hyt)
    | false =>
      rw [hp] at hy
      simp only [Bool.false_eq_true, if_false] at hy
      rcases List.mem_cons.mp hy with rfl | hyt
      · exact Or.inl (List.mem_cons_self _ t)
      · rcases ih hyt with h1 | ⟨z, hz, hpz, hfz⟩
        · exact Or.inl (List.mem_cons_of_mem x h1)
        · exact Or.inr ⟨z, List.mem_cons_of_mem x hz, hpz, hfz⟩

theorem map_updateFirst (p : α → Bool) (f : α → α) (g : α → β) (l : List α)
    (h : ∀ x ∈ l, p x = true → g (f x) = g x) :
    (updateFirst p f l).map g = l.map g := by
  induction l with
  | nil => rfl
  | cons x t ih =>
    unfold updateFirst
    cases hp : p x with
    | true =>
      simp only [if_true, List.map_cons]
      rw [h x (List.mem_cons_self x t) hp]
    | false =>
      simp only [Bool.false_eq_true, if_false, List.map_cons]
      rw [ih (fun y hy hpy => h y (List.mem_cons_of_mem x hy) hpy)]

theorem find?_updateFirst_found (p : α → Bool) (f : α → α) (l : List α) (e : α)
    (hf : ∀ x, p x = true → p (f x) = true)
    (h : l.find? p = some e) :
    (updateFirst p f l).find? p = some (f e) := by
  induction l with
  | nil => exact absurd h (by simp)
  | cons x t ih =>
    cases hp : p x with
    | true =>
      rw [List.find?_cons_of_pos _ hp] at h
      have hxe : x = e := by injection h
      subst hxe
      unfold updateFirst
      rw [hp]
      simp only [if_true]
      exact List.find?_cons_of_pos _ (hf x hp)
    | false =>
      rw [List.find?_cons_of_neg _ (by simp [hp])] at h
      unfold updateFirst
      rw [hp]
      simp only [Bool.false_eq_true, if_false]
      rw [List.find?_cons_of_neg _ (by simp [hp])]
      exact ih h

theorem countP_le_one_of_nodup_map (l : List UserDoc)
    (h : (l.map (fun u => u.username)).Nodup) (s : String) :
    l.countP (fun u => u.username == s) ≤ 1 := by
  induction l with
  | nil => simp
  | cons a t ih =>
    rw [List.map_cons, List.nodup_cons] at h
    obtain ⟨ha, ht⟩ := h
    rw [List.countP_cons]
    cases hp : (a.username == s) with
    | false => simpa [hp] using ih ht
    | true =>
      have hs : a.username = s := eq_of_beq hp
      have hzero : t.countP (fun u => u.username == s) = 0 := by
        rw [List.countP_eq_zero]
        intro u hu hb
        have hmem : a.username ∈ t.map (fun u => u.username) := by
          rw [hs, ← eq_of_beq hb]
          exact List.mem_map_of_mem (fun u => u.username) hu
        exact ha hmem
      simp [hp, hzero]

/-- Reduced form of `upsert_user` when the username lookup misses:
the payload is stamped and appended, keyed by the username itself. -/
theorem upsert_user_insert_eq (d : DB) (p : UserProfile) (tU tC : Time)
    (hfind : d.userprofile.find? (fun u => u.username == p.username) = none) :
    upsert_user (some d) p tU tC =
      (some { d with userprofile := d.userprofile ++ [insertedUser p tU tC] },
       .ok ⟨p.username, p.age, p.trust_score⟩) := by
  simp only [upsert_user, hfind]
  rfl

/-- Reduced form of `upsert_user` when the username lookup hits `e`:
the first document with the key of `e` gets the payload merged and is
then re-read. -/
theorem upsert_user_update_eq (d : DB) (p : UserProfile) (tU tC : Time)
    (e : UserDoc)
    (hfind : d.userprofile.find? (fun u => u.username == p.username) = some e) :
    upsert_user (some d) p tU tC =
      (some { d with userprofile := updateFirst (fun u => u._id == e._id) (applySet p tU) d.userprofile },
       .ok
        (let doc := ((updateFirst (fun u => u._id == e._id) (applySet p tU) d.userprofile).find?
            (fun u => u._id == e._id)).getD (applySet p tU e)
         ⟨doc.username, doc.age, doc.trust_score⟩)) := by
  simp only [upsert_user, hfind]

/-- One `upsert_user` call on a well-formed store: it answers with the
three-field projection of the request, keeps the store well formed, and
leaves exactly one document under the username, carrying the payload. -/
theorem upsert_user_step (d : DB) (p : UserProfile) (tU tC : Time)
    (hwf : UserStoreWF d.userprofile) :
    ∃ d1 : DB,
      upsert_user (some d) p tU tC =
        (some d1, .ok ⟨p.username, p.age, p.trust_score⟩) ∧
      UserStoreWF d1.userprofile ∧
      d1.userprofile.countP (fun u => u.username == p.username) = 1 ∧
      (∃ u, d1.userprofile.find? (fun u => u.username == p.username) = some u ∧
        u.username = p.username ∧ u.age = p.age ∧ u.trust_score = p.trust_score) := by
  obtain ⟨hid, hnd⟩ := hwf
  cases hfind : d.userprofile.find? (fun u => u.username == p.username) with
  | none =>
    have hnotin : ∀ u ∈ d.userprofile, (u.username == p.username) = false := by
      intro u hu
      cases hb : (u.username == p.username) with
      | true => exact absurd hb (List.find?_eq_none.mp hfind u hu)
      | false => rfl
    refine ⟨_, upsert_user_insert_eq d p tU tC hfind, ?_, ?_, ?_⟩
    · constructor
      · intro u hu
        rcases List.mem_append.mp hu with h1 | h2
        · exact hid u h1
        · rw [List.mem_singleton] at h2
          subst h2
          rfl
      · show ((d.userprofile ++ [insertedUser p tU tC]).map (fun u => u.username)).Nodup
        rw [List.map_append, List.nodup_append]
        refine ⟨hnd, by simp, ?_⟩
        intro a ha hb
        simp only [List.map_cons, List.map_nil, List.mem_singleton, insertedUser] at hb
        obtain ⟨u, hu, hua⟩ := List.mem_map.mp ha
        have hfalse := hnotin u hu
        rw [hua, hb] at hfalse
        simp at hfalse
    · show (d.userprofile ++ [insertedUser p tU tC]).countP
          (fun u => u.username == p.username) = 1
      rw [List.countP_append,
          List.countP_eq_zero.mpr (fun u hu hb => by rw [hnotin u hu] at hb; cases hb)]
      simp [List.countP_cons, insertedUser]
    · refine ⟨insertedUser p tU tC, ?_, rfl, rfl, rfl⟩
      show (d.userprofile ++ [insertedUser p tU tC]).find?
          (fun u => u.username == p.username) = some (insertedUser p tU tC)
      rw [List.find?_append, hfind]
      simp [List.find?, insertedUser]
  | some e =>
    have hbeq : (e.username == p.username) = true := by
      have := List.find?_some hfind
      exact this
    have hep : e.username = p.username := eq_of_beq hbeq
    have hemem : e ∈ d.userprofile := List.mem_of_find?_eq_some hfind
    have heid : e._id = e.username := hid e hemem
    have hagree : ∀ x ∈ d.userprofile,
        (x._id == e._id) = (x.username == p.username) := by
      intro x hx
      rw [hid x hx, heid, hep]
    have hupd : updateFirst (fun u => u._id == e._id) (applySet p tU) d.userprofile
        = updateFirst (fun u => u.username == p.username) (applySet p tU) d.userprofile :=
      updateFirst_congr _ _ _ _ hagree
    have happly : ∀ x : UserDoc, ((applySet p tU x).username == p.username) = true := by
      intro x
      simp [applySet]
    have hffound : (updateFirst (fun u => u.username == p.username) (applySet p tU)
        d.userprofile).find? (fun u => u.username == p.username) = some (applySet p tU e) :=
      find?_updateFirst_found _ _ _ e (fun x _ => happly x) hfind
    have hmap : (updateFirst (fun u => u._id == e._id) (applySet p tU)
        d.userprofile).map (fun u => u.username) = d.userprofile.map (fun u => u.username) := by
      rw [hupd]
      exact map_updateFirst _ _ _ _ (fun x hx hpx => by simp [applySet, eq_of_beq hpx])
    have hagree2 : ∀ x ∈ updateFirst (fun u => u._id == e._id) (applySet p tU) d.userprofile,
        (x._id == e._id) = (x.username == p.username) := by
      intro x hx
      rcases mem_updateFirst _ _ _ _ hx with hxl | ⟨z, hz, hpz, hfz⟩
      · exact hagree x hxl
      · subst hfz
        have hz1 : z._id = e._id := eq_of_beq hpz
        simp [applySet, hz1]
    have hfind2 : (updateFirst (fun u => u._id == e._id) (applySet p tU)
        d.userprofile).find? (fun u => u._id == e._id) = some (applySet p tU e) := by
      rw [find?_congrP _ _ _ hagree2, hupd]
      exact hffound
    have hcount : ∀ (L : List UserDoc), L.countP (fun u => u.username == p.username)
        = (L.map (fun u => u.username)).countP (fun s => s == p.username) := by
      intro L
      rw [List.countP_map]
      rfl
    refine ⟨{ d with userprofile := updateFirst (fun u => u._id == e._id) (applySet p tU) d.userprofile }, ?_, ?_, ?_, ?_⟩
    · rw [upsert_user_update_eq d p tU tC e hfind]
      simp only [hfind2, Option.getD_some]
      rfl
    · show UserStoreWF (updateFirst (fun u => u._id == e._id) (applySet p tU) d.userprofile)
      constructor
      · intro u hu
        rcases mem_updateFirst _ _ _ _ hu with hxl | ⟨z, hz, hpz, hfz⟩
        · exact hid u hxl
        · subst hfz
          show (applySet p tU z)._id = (applySet p tU z).username
          have hz1 : z._id = e._id := eq_of_beq hpz
          show z._id = p.username
          rw [hz1, heid, hep]
      · show ((updateFirst (fun u => u._id == e._id) (applySet p tU)
            d.userprofile).map (fun u => u.username)).Nodup
        rw [hmap]
        exact hnd
    · show (updateFirst (fun u => u._id == e._id) (applySet p tU)
          d.userprofile).countP (fun u => u.username == p.username) = 1
      rw [hcount, hmap, ← hcount]
      have hle := countP_le_one_of_nodup_map d.userprofile hnd p.username
      have hpos : 0 < d.userprofile.countP (fun u => u.username == p.username) :=
        List.countP_pos_iff.mpr ⟨e, hemem, hbeq⟩
      omega
    · refine ⟨applySet p tU e, ?_, rfl, rfl, rfl⟩
      show (updateFirst (fun u => u._id == e._id) (applySet p tU)
          d.userprofile).find? (fun u => u.username == p.username) = some (applySet p tU e)
      rw [hupd]
      exact hffound

/-- C4: two upserts of valid profiles under the same username leave
exactly one stored record for it, carrying the second call payload, and
each call answers with only the three projected fields. -/
theorem upsert_user_twice (d : DB) (p1 p2 : UserProfile) (t1 t2 t3 t4 : Time)
    (hv1 : p1.Valid) (hv2 : p2.Valid) (hsame : p1.username = p2.username)
    (hwf : UserStoreWF d.userprofile) :
    ∃ d1 d2 : DB,
      upsert_user (some d) p1 t1 t2 =
        (some d1, .ok ⟨p1.username, p1.age, p1.trust_score⟩) ∧
      upsert_user (some d1) p2 t3 t4 =
        (some d2, .ok ⟨p2.username, p2.age, p2.trust_score⟩) ∧
      d2.userprofile.countP (fun u => u.username == p2.username) = 1 ∧
      (∃ u, d2.userprofile.find? (fun u => u.username == p2.username) = some u ∧
        u.age = p2.age ∧ u.trust_score = p2.trust_score) := by
  obtain ⟨d1, h1, hwf1, _, _⟩ := upsert_user_step d p1 t1 t2 hwf
  obtain ⟨d2, h2, _, hcount, u, hfindu, _, hage, htrust⟩ :=
    upsert_user_step d1 p2 t3 t4 hwf1
  exact ⟨d1, d2, h1, h2, hcount, u, hfindu, hage, htrust⟩

/-- C4 witness: two concrete upserts of the username bob on the sample
store; the surviving record carries the second payload. -/
theorem upsert_user_twice_witness :
    ∃ d1 d2 : DB,
      upsert_user (some wDB) wProf1 2 3 =
        (some d1, .ok ⟨wProf1.username, wProf1.age, wProf1.trust_score⟩) ∧
      upsert_user (some d1) wProf2 4 5 =
        (some d2, .ok ⟨wProf2.username, wProf2.age, wProf2.trust_score⟩) ∧
      d2.userprofile.countP (fun u => u.username == wProf2.username) = 1 ∧
      (∃ u, d2.userprofile.find? (fun u => u.username == wProf2.username) = some u ∧
        u.age = wProf2.age ∧ u.trust_score = wProf2.trust_score) :=
  upsert_user_twice wDB wProf1 wProf2 2 3 4 5 (by decide) (by decide) rfl (by decide)
